import Mathlib

/-!
Verification development for the perfectmd rich-text editor.

The definitions below are a shallow embedding of the program:
the Zustand document store (src/store/editor-store.ts), the
contenteditable editing engine (src/components/editor/MarkdownEditor.tsx)
and the Markdown serializer (src/lib/html-to-markdown.ts).
-/

namespace PerfectMD

/-! ## Document store (src/store/editor-store.ts) -/

/-- A stored document record, as in the interface Document of
editor-store.ts.  Timestamps are modelled as naturals (epoch millis,
the value Date.getTime extracts from the ISO strings the code stores). -/
structure Document where
  id : String
  title : String
  content : String
  isPinned : Bool
  createdAt : Nat
  updatedAt : Nat
deriving DecidableEq, Repr

/-- The sort comparator used by getAllDocs, saveDocument and togglePin:
pinned documents first, then most recent updatedAt first.  This renders
the JS comparator (a,b) =&gt; a.isPinned !== b.isPinned ? (b.isPinned ? 1 : -1)
: timeB - timeA as a boolean may-precede relation. -/
def docLE (a b : Document) : Bool :=
  if a.isPinned != b.isPinned then a.isPinned else b.updatedAt ≤ a.updatedAt

/-- Array.prototype.sort with the pinned-first comparator (stable sort). -/
def sortDocs (l : List Document) : List Document :=
  l.mergeSort docLE

/-- The per-element update performed by the store togglePin action:
documents.map flipping isPinned for the matching id. -/
def toggleIf (i : String) (d : Document) : Document :=
  if d.id == i then { d with isPinned := !d.isPinned } else d

/-- The predicate used to look a document up by id. -/
def matchesId (i : String) (d : Document) : Bool :=
  d.id == i

/-- The state update performed by the store togglePin action: flip the
pin flag of the document with the given id, then re-sort. -/
def togglePinStore (i : String) (docs : List Document) : List Document :=
  sortDocs (docs.map (toggleIf i))

/-- Observe the pin flag of the document with a given id (find? mirrors
lookup by id in the documents array). -/
def pinOf (docs : List Document) (i : String) : Option Bool :=
  (docs.find? (matchesId i)).map (·.isPinned)

/-- A patch accepted by updateDoc: Partial of Document minus id and
createdAt (the TypeScript type Omit excludes those two keys). -/
structure DocPatch where
  title : Option String := none
  content : Option String := none
  isPinned : Option Bool := none
  updatedAt : Option Nat := none
deriving Repr

/-- The merged record built by updateDoc: spread existing, then the
patch, then updatedAt set to the current time (the explicit updatedAt
field in the object literal wins over any updatedAt in the patch). -/
def applyPatch (d : Document) (p : DocPatch) (now : Nat) : Document :=
  { id := d.id
    createdAt := d.createdAt
    title := p.title.getD d.title
    content := p.content.getD d.content
    isPinned := p.isPinned.getD d.isPinned
    updatedAt := now }

/-- IndexedDB put on an object store keyed by id: replace the record
with the same key. -/
def putDoc (db : List Document) (u : Document) : List Document :=
  db.map fun d => if d.id == u.id then u else d

/-- getDocById: IndexedDB get, modelled as lookup by id. -/
def getDocById (db : List Document) (i : String) : Option Document :=
  db.find? (matchesId i)

/-- updateDoc(id, data): if no record has the id return null and leave
the store alone; otherwise merge, stamp updatedAt, and put the result. -/
def updateDoc (db : List Document) (i : String) (p : DocPatch) (now : Nat) :
    Option Document × List Document :=
  match getDocById db i with
  | none => (none, db)
  | some existing =>
    let u := applyPatch existing p now
    (some u, putDoc db u)

/-! helper lemmas about find? under permutation of a list with
pairwise-distinct ids -/

theorem id_toggleIf (i : String) (d : Document) : (toggleIf i d).id = d.id := by
  unfold toggleIf
  split <;> rfl

theorem find?_eq_head?_filterPMD {α : Type} (p : α → Bool) (l : List α) :
    l.find? p = (l.filter p).head? := by
  induction l with
  | nil => rfl
  | cons a t ih =>
    rw [List.find?_cons, List.filter_cons]
    cases h : p a with
    | true => rfl
    | false => simp only [Bool.false_eq_true, if_false]; exact ih

theorem filter_byId_short (i : String) (l : List Document)
    (hnd : (l.map (·.id)).Nodup) :
    (l.filter (matchesId i)).length ≤ 1 := by
  induction l with
  | nil => simp
  | cons a t ih =>
    rw [List.map_cons, List.nodup_cons] at hnd
    rw [List.filter_cons]
    cases h : matchesId i a with
    | false => simp only [Bool.false_eq_true, if_false]; exact ih hnd.2
    | true =>
      have hid : a.id = i := eq_of_beq h
      have hnil : t.filter (matchesId i) = [] := by
        rw [List.filter_eq_nil_iff]
        intro d hd
        have hne : d.id ≠ a.id := fun he => hnd.1 (he ▸ List.mem_map_of_mem (·.id) hd)
        rw [matchesId, ← hid]
        simpa using hne
      simp [hnil]

theorem perm_short_eq {α : Type} {l l' : List α}
    (hp : l.Perm l') (hl : l.length ≤ 1) : l = l' := by
  have hlen := hp.length_eq
  cases l with
  | nil =>
    cases l' with
    | nil => rfl
    | cons b t => simp at hlen
  | cons a t =>
    cases t with
    | nil =>
      cases l' with
      | nil => simp at hlen
      | cons b t' =>
        cases t' with
        | nil =>
          have hm : a ∈ [b] := hp.mem_iff.mp (by simp)
          simp at hm
          rw [hm]
        | cons c t'' => simp at hlen
    | cons b t' => simp at hl

theorem find?_perm_nodupIds {l l' : List Document} (i : String)
    (hp : l.Perm l') (hnd : (l.map (·.id)).Nodup) :
    l.find? (matchesId i) = l'.find? (matchesId i) := by
  rw [find?_eq_head?_filterPMD, find?_eq_head?_filterPMD]
  have hfp := hp.filter (matchesId i)
  rw [perm_short_eq hfp (filter_byId_short i l hnd)]

theorem find?_map_toggle (i j : String) (l : List Document) :
    (l.map (toggleIf i)).find? (matchesId j) =
      (l.find? (matchesId j)).map (toggleIf i) := by
  induction l with
  | nil => rfl
  | cons a t ih =>
    rw [List.map_cons, List.find?_cons, List.find?_cons]
    have hsame : matchesId j (toggleIf i a) = matchesId j a := by
      rw [matchesId, matchesId, id_toggleIf]
    cases h : matchesId j a with
    | true =>
      rw [hsame, h]
      rfl
    | false =>
      rw [hsame, h]
      exact ih

theorem ids_map_toggle (i : String) (l : List Document) :
    (l.map (toggleIf i)).map (·.id) = l.map (·.id) := by
  induction l with
  | nil => rfl
  | cons a t ih =>
    rw [List.map_cons, List.map_cons, List.map_cons, id_toggleIf, ih]

theorem togglePinStore_pinOf (i j : String) (docs : List Document)
    (hnd : (docs.map (·.id)).Nodup) :
    pinOf (togglePinStore i docs) j =
      (docs.find? (matchesId j)).map
        (fun d => if d.id == i then !d.isPinned else d.isPinned) := by
  unfold pinOf togglePinStore sortDocs
  have hperm := (List.mergeSort_perm (docs.map (toggleIf i)) docLE).symm
  have hnd' : ((docs.map (toggleIf i)).map (·.id)).Nodup := by
    rw [ids_map_toggle]; exact hnd
  rw [← find?_perm_nodupIds j hperm hnd', find?_map_toggle]
  cases hfd : docs.find? (matchesId j) with
  | none => rfl
  | some d =>
    show some ((toggleIf i d).isPinned) = some (if d.id == i then !d.isPinned else d.isPinned)
    unfold toggleIf
    cases h : d.id == i with
    | true => simp [h]
    | false => simp [h]

theorem togglePinStore_nodup (i : String) (docs : List Document)
    (hnd : (docs.map (·.id)).Nodup) :
    ((togglePinStore i docs).map (·.id)).Nodup := by
  unfold togglePinStore sortDocs
  have hperm := (List.mergeSort_perm (docs.map (toggleIf i)) docLE).map (·.id)
  refine hperm.nodup_iff.mpr ?_
  rw [ids_map_toggle]
  exact hnd

theorem find?_holds {α : Type} {p : α → Bool} {l : List α} {a : α}
    (h : l.find? p = some a) : p a = true := by
  induction l with
  | nil => exact absurd h (by simp)
  | cons b t ih =>
    rw [List.find?_cons] at h
    cases hb : p b with
    | true =>
      rw [hb] at h
      cases h
      exact hb
    | false =>
      rw [hb] at h
      exact ih h

theorem findToggled (i : String) (docs : List Document)
    (hnd : (docs.map (·.id)).Nodup) :
    (togglePinStore i docs).find? (matchesId i) =
      (docs.find? (matchesId i)).map (toggleIf i) := by
  unfold togglePinStore sortDocs
  have hperm := (List.mergeSort_perm (docs.map (toggleIf i)) docLE).symm
  have hnd' : ((docs.map (toggleIf i)).map (·.id)).Nodup := by
    rw [ids_map_toggle]; exact hnd
  rw [← find?_perm_nodupIds i hperm hnd', find?_map_toggle]

/-- C9: togglePin flips the pin flag of the targeted document, is an
involution on that flag, and leaves every other document's pin flag
unchanged. -/
theorem togglePin_involution (docs : List Document) (i : String)
    (hnd : (docs.map (·.id)).Nodup) :
    pinOf (togglePinStore i docs) i = (pinOf docs i).map (fun b => !b)
    ∧ pinOf (togglePinStore i (togglePinStore i docs)) i = pinOf docs i
    ∧ ∀ j, j ≠ i → pinOf (togglePinStore i docs) j = pinOf docs j := by
  refine ⟨?_, ?_, ?_⟩
  · rw [togglePinStore_pinOf i i docs hnd]
    unfold pinOf
    cases hfd : docs.find? (matchesId i) with
    | none => rfl
    | some d =>
      have hmi : matchesId i d = true := find?_holds hfd
      have hdi : (d.id == i) = true := hmi
      have hde : d.id = i := eq_of_beq hdi
      simp [hde]
  · rw [togglePinStore_pinOf i i (togglePinStore i docs) (togglePinStore_nodup i docs hnd)]
    rw [findToggled i docs hnd]
    unfold pinOf
    cases hfd : docs.find? (matchesId i) with
    | none => rfl
    | some d =>
      have hmi : matchesId i d = true := find?_holds hfd
      have hdi : (d.id == i) = true := hmi
      have hde : d.id = i := eq_of_beq hdi
      simp [toggleIf, hde]
  · intro j hj
    rw [togglePinStore_pinOf i j docs hnd]
    unfold pinOf
    cases hfd : docs.find? (matchesId j) with
    | none => rfl
    | some d =>
      have hmj : matchesId j d = true := find?_holds hfd
      have hdj : d.id = j := eq_of_beq hmj
      simp [hdj, hj]

/-- Witness for C9 at a concrete two-document store. -/
theorem togglePin_involution_witness :
    pinOf (togglePinStore "a"
      [⟨"a", "t", "c", false, 0, 5⟩, ⟨"b", "u", "d", true, 1, 3⟩]) "a" = some true
    ∧ pinOf (togglePinStore "a" (togglePinStore "a"
      [⟨"a", "t", "c", false, 0, 5⟩, ⟨"b", "u", "d", true, 1, 3⟩])) "a" = some false
    ∧ pinOf (togglePinStore "a"
      [⟨"a", "t", "c", false, 0, 5⟩, ⟨"b", "u", "d", true, 1, 3⟩]) "b" = some true := by
  have h := togglePin_involution
    [⟨"a", "t", "c", false, 0, 5⟩, ⟨"b", "u", "d", true, 1, 3⟩] "a" (by decide)
  refine ⟨?_, ?_, ?_⟩
  · rw [h.1]; rfl
  · rw [h.2.1]; rfl
  · rw [h.2.2 "b" (by decide)]; rfl

/-- Character list of a string literal. -/
def chars (s : String) : List Char :=
  s.toList

/-- The backtick character (code point 96). -/
def backtickChar : Char :=
  Char.ofNat 96

/-! ## Inline markdown shortcuts (MarkdownEditor.tsx, applyInlineMarkdownShortcut) -/

/-- The inline formatting kinds produced by the shortcut patterns
(strong, em, s, code, u, a elements). -/
inductive InlineKind
  | boldK
  | italicK
  | strikeK
  | codeK
  | underK
  | linkK (href : List Char)
deriving DecidableEq, Repr

/-- The execCommand names the conversion resets afterwards. -/
inductive Cmd
  | bold
  | italic
  | strikeThrough
  | underline
deriving DecidableEq, Repr

/-- All characters of the list avoid the given bad set. -/
def noneOf (bad : List Char) (l : List Char) : Bool :=
  l.all fun c => !(bad.contains c)

/-- JS regex whitespace class, for the url part of the link pattern. -/
def isJsSpace (c : Char) : Bool :=
  c = ' ' || c = '\t' || c = '\n' || c = '\r' ||
    c = Char.ofNat 11 || c = Char.ofNat 12 || c = Char.ofNat 160

/-- Try the bold pattern (two stars, lazy nonempty star-free inner, two
stars, end anchor) against the whole suffix s. -/
def tryBoldAt (s : List Char) : Option (List Char) :=
  if s.take 2 = ['*', '*'] then
    if 3 ≤ (s.drop 2).length ∧ (s.drop 2).drop ((s.drop 2).length - 2) = ['*', '*']
        ∧ noneOf ['*', '\n'] ((s.drop 2).take ((s.drop 2).length - 2)) = true
    then some ((s.drop 2).take ((s.drop 2).length - 2)) else none
  else none

/-- Try a single-character delimiter pattern (star, underscore or
backtick) with a nonempty inner free of the delimiter and newlines,
anchored at the end of the suffix.  lb is the negative-lookbehind
character, if any. -/
def trySingleAt (d : Char) (lb : Bool) (prev : Option Char) (s : List Char) :
    Option (List Char) :=
  if lb ∧ prev = some d then none
  else if s.take 1 = [d] then
    if 2 ≤ (s.drop 1).length ∧ (s.drop 1).drop ((s.drop 1).length - 1) = [d]
        ∧ noneOf [d, '\n'] ((s.drop 1).take ((s.drop 1).length - 1)) = true
    then some ((s.drop 1).take ((s.drop 1).length - 1)) else none
  else none

/-- Try the strikethrough pattern: an ascii or fullwidth double tilde,
a nonempty tilde-free inner, and the same delimiter again (the regex
backreference), anchored at the end. -/
def tryTildeAt (s : List Char) : Option (List Char) :=
  if s.take 2 = ['~', '~'] ∨ s.take 2 = ['～', '～'] then
    if 3 ≤ (s.drop 2).length ∧ (s.drop 2).drop ((s.drop 2).length - 2) = s.take 2
        ∧ noneOf ['~', '～', '\n'] ((s.drop 2).take ((s.drop 2).length - 2)) = true
    then some ((s.drop 2).take ((s.drop 2).length - 2)) else none
  else none

/-- Try the double-plus underline pattern. -/
def tryPlusAt (s : List Char) : Option (List Char) :=
  if s.take 2 = ['+', '+'] then
    if 3 ≤ (s.drop 2).length ∧ (s.drop 2).drop ((s.drop 2).length - 2) = ['+', '+']
        ∧ noneOf ['+', '\n'] ((s.drop 2).take ((s.drop 2).length - 2)) = true
    then some ((s.drop 2).take ((s.drop 2).length - 2)) else none
  else none

/-- Try the u-tag underline pattern, case-insensitive as in the source
regex i flag. -/
def tryUTagAt (s : List Char) : Option (List Char) :=
  if (s.take 3).map Char.toLower = ['<', 'u', '>'] then
    if 5 ≤ (s.drop 3).length
        ∧ ((s.drop 3).drop ((s.drop 3).length - 4)).map Char.toLower = ['<', '/', 'u', '>']
        ∧ noneOf ['<', '\n'] ((s.drop 3).take ((s.drop 3).length - 4)) = true
    then some ((s.drop 3).take ((s.drop 3).length - 4)) else none
  else none

/-- The label captured by the link pattern: the characters after the
opening bracket up to the closing bracket (the label class excludes
closing brackets and newlines). -/
def linkLabel (s : List Char) : List Char :=
  (s.drop 1).takeWhile fun c => !(c = ']' || c = '\n')

/-- What remains after the label. -/
def linkRest1 (s : List Char) : List Char :=
  (s.drop 1).drop (linkLabel s).length

/-- What remains after the label, the closing bracket and the opening
paren. -/
def linkRest2 (s : List Char) : List Char :=
  (linkRest1 s).drop 2

/-- The url captured by the link pattern: characters free of closing
parens and whitespace. -/
def linkUrl (s : List Char) : List Char :=
  (linkRest2 s).takeWhile fun c => !(c = ')' || isJsSpace c)

/-- Try the link pattern: bracketed nonempty label free of closing
brackets and newlines, then a parenthesised nonempty url free of
closing parens and whitespace, anchored at the end. -/
def tryLinkAt (s : List Char) : Option (List Char × List Char) :=
  if s.take 1 = ['['] then
    if linkLabel s ≠ [] ∧ (linkRest1 s).take 2 = [']', '('] then
      if linkUrl s ≠ [] ∧ (linkRest2 s).drop (linkUrl s).length = [')']
      then some (linkLabel s, linkUrl s) else none
    else none
  else none

/-- A successful inline pattern match: the full matched span (always a
suffix of the text before the caret), the captured inner text, the
produced formatting and the commands reset afterwards. -/
structure InlineFound where
  full : List Char
  inner : List Char
  kind : InlineKind
  resets : List Cmd
deriving DecidableEq, Repr

/-- Scan left to right for the leftmost position where the
end-anchored pattern matches, carrying the previous character for
lookbehinds, as String.prototype.match does. -/
def scanFor (f : Option Char → List Char → Option (List Char))
    (k : InlineKind) (r : List Cmd) :
    Option Char → List Char → Option InlineFound
  | _, [] => none
  | prev, c :: rest =>
    match f prev (c :: rest) with
    | some inner => some ⟨c :: rest, inner, k, r⟩
    | none => scanFor f k r (some c) rest

/-- Scan for the leftmost link-pattern match. -/
def scanLink : List Char → Option InlineFound
  | [] => none
  | c :: rest =>
    match tryLinkAt (c :: rest) with
    | some (label, url) => some ⟨c :: rest, label, .linkK url, []⟩
    | none => scanLink rest

/-- The pattern table of applyInlineMarkdownShortcut, tried in source
order: bold, star italic, underscore italic, strikethrough, inline
code, double-plus underline, u-tag underline, link. -/
def findInlineMatch (before : List Char) : Option InlineFound :=
  (scanFor (fun _ s => tryBoldAt s) .boldK [.bold] none before) <|>
  (scanFor (trySingleAt '*' true) .italicK [.italic] none before) <|>
  (scanFor (trySingleAt '_' true) .italicK [.italic] none before) <|>
  (scanFor (fun _ s => tryTildeAt s) .strikeK [.strikeThrough] none before) <|>
  (scanFor (fun prev s => trySingleAt backtickChar false prev s) .codeK [] none before) <|>
  (scanFor (fun _ s => tryPlusAt s) .underK [.underline] none before) <|>
  (scanFor (fun _ s => tryUTagAt s) .underK [.underline] none before) <|>
  scanLink before

/-- An inline node of the editing surface: a text node or a formatted
element whose content is plain text. -/
inductive INode
  | text (s : List Char)
  | el (k : InlineKind) (content : List Char)
deriving DecidableEq, Repr

/-- The caret inside a text node: node content and character offset. -/
structure TextCaret where
  data : List Char
  offset : Nat
deriving DecidableEq, Repr

/-- Range.deleteContents on a range inside one text node. -/
def textDeleteRange (data : List Char) (s e : Nat) : List Char :=
  data.take s ++ data.drop e

/-- Range.insertNode of a fragment at a character position inside a
text node: the text node splits around the inserted nodes. -/
def splitInsertAt (data : List Char) (pos : Nat) (frag : List INode) : List INode :=
  INode.text (data.take pos) :: frag ++ [INode.text (data.drop pos)]

/-- The outcome of a successful inline conversion: the local node list
replacing the caret text node, the caret (node index and offset inside
it), whether the keystroke default was prevented, and the commands to
reset. -/
structure InlineConv where
  nodes : List INode
  caretNode : Nat
  caretOffset : Nat
  prevented : Bool
  resets : List Cmd
deriving DecidableEq, Repr

/-- The replacement performed on a successful inline match: delete
the matched span before the caret, insert the formatted element
followed by a one-space text node, and set the caret inside that
trailing space text node at its end (offset 1, the space length). -/
def inlineConvOf (c : TextCaret) (m : InlineFound) : InlineConv :=
  let replaceStart := c.offset - m.full.length
  let data1 := textDeleteRange c.data replaceStart c.offset
  { nodes := splitInsertAt data1 replaceStart [INode.el m.kind m.inner, INode.text [' ']]
    caretNode := 2
    caretOffset := 1
    prevented := true
    resets := m.resets }

/-- applyInlineMarkdownShortcut: on a space key with a collapsed caret
inside a text node, match the pattern table against the text before
the caret and perform the replacement on a match; in every other case
do nothing and let the keystroke through. -/
def applyInlineMarkdownShortcut (key : List Char) (collapsed : Bool)
    (tc : Option TextCaret) : Option InlineConv :=
  if key ≠ [' '] then none
  else if collapsed = false then none
  else match tc with
  | none => none
  | some c => (findInlineMatch (c.data.take c.offset)).map (inlineConvOf c)

/-! ## Typing-format state after an inline conversion (C4) -/

/-- The four inline command states queryCommandState reports. -/
structure CmdStates where
  bold : Bool
  italic : Bool
  strikeThrough : Bool
  underline : Bool
deriving DecidableEq, Repr

/-- Read one command state. -/
def getCmd (s : CmdStates) : Cmd → Bool
  | .bold => s.bold
  | .italic => s.italic
  | .strikeThrough => s.strikeThrough
  | .underline => s.underline

/-- If queryCommandState(command) then execCommand(command): the net
effect is that the state ends up off. -/
def execToggleOff (s : CmdStates) : Cmd → CmdStates
  | .bold => { s with bold := false }
  | .italic => { s with italic := false }
  | .strikeThrough => { s with strikeThrough := false }
  | .underline => { s with underline := false }

/-- The per-pattern resetCommands loop of applyInlineMarkdownShortcut. -/
def applyResetCommands (resets : List Cmd) (s : CmdStates) : CmdStates :=
  resets.foldl execToggleOff s

/-- clearInlineTypingState: force italic, strikeThrough and underline
off; bold is deliberately left alone because headings rely on their
own bold style. -/
def clearInlineTypingState (s : CmdStates) : CmdStates :=
  { s with italic := false, strikeThrough := false, underline := false }

/-- The typing-state epilogue of a successful inline conversion: run
the pattern resetCommands unconditionally, then, only outside a
heading, run clearInlineTypingState; arm the reset-typing flag only
outside a heading. -/
def afterInlineConversion (resets : List Cmd) (inHeading : Bool) (s : CmdStates) :
    CmdStates × Bool :=
  let s1 := applyResetCommands resets s
  let s2 := if inHeading then s1 else clearInlineTypingState s1
  (s2, !inHeading)

/-- C10: updateDoc on a missing id returns none and leaves the store
unchanged; on a present id it preserves id and createdAt, stamps
updatedAt with the current time, changes only the patched fields, and
leaves every other stored record untouched. -/
theorem updateDoc_frame (db : List Document) (i : String) (p : DocPatch) (now : Nat) :
    (getDocById db i = none → updateDoc db i p now = (none, db))
    ∧ (∀ e, getDocById db i = some e →
        ∃ u, updateDoc db i p now = (some u, putDoc db u)
          ∧ u.id = e.id
          ∧ u.createdAt = e.createdAt
          ∧ u.updatedAt = now
          ∧ (p.title = none → u.title = e.title)
          ∧ (∀ v, p.title = some v → u.title = v)
          ∧ (p.content = none → u.content = e.content)
          ∧ (∀ v, p.content = some v → u.content = v)
          ∧ (p.isPinned = none → u.isPinned = e.isPinned)
          ∧ (∀ v, p.isPinned = some v → u.isPinned = v)
          ∧ (∀ d ∈ db, d.id ≠ i → d ∈ putDoc db u)) := by
  constructor
  · intro hnone
    unfold updateDoc
    rw [hnone]
  · intro e he
    refine ⟨applyPatch e p now, ?_, rfl, rfl, rfl, ?_, ?_, ?_, ?_, ?_, ?_, ?_⟩
    · unfold updateDoc
      rw [he]
    · intro h; simp [applyPatch, h]
    · intro v h; simp [applyPatch, h]
    · intro h; simp [applyPatch, h]
    · intro v h; simp [applyPatch, h]
    · intro h; simp [applyPatch, h]
    · intro v h; simp [applyPatch, h]
    · intro d hd hne
      have hmi : matchesId i e = true := find?_holds he
      have hid : e.id = i := eq_of_beq hmi
      unfold putDoc
      have hb : (d.id == (applyPatch e p now).id) = false := by
        have h0 : (applyPatch e p now).id = e.id := rfl
        rw [h0, hid]
        exact beq_eq_false_iff_ne.mpr hne
      exact List.mem_map.mpr ⟨d, hd, by rw [hb]; simp⟩

/-- Witness for C10 at a concrete store, both for a present and a
missing id. -/
theorem updateDoc_frame_witness :
    updateDoc [⟨"a", "t", "c", false, 0, 5⟩] "z" { title := some "w" } 9 =
      (none, [⟨"a", "t", "c", false, 0, 5⟩])
    ∧ ∃ u, updateDoc [⟨"a", "t", "c", false, 0, 5⟩] "a" { title := some "w" } 9 =
        (some u, putDoc [⟨"a", "t", "c", false, 0, 5⟩] u)
      ∧ u.id = "a" ∧ u.createdAt = 0 ∧ u.updatedAt = 9 ∧ u.title = "w" := by
  constructor
  · exact (updateDoc_frame [⟨"a", "t", "c", false, 0, 5⟩] "z" { title := some "w" } 9).1 rfl
  · obtain ⟨u, h1, h2, h3, h4, _, h6, _⟩ :=
      (updateDoc_frame [⟨"a", "t", "c", false, 0, 5⟩] "a" { title := some "w" } 9).2
        ⟨"a", "t", "c", false, 0, 5⟩ rfl
    exact ⟨u, h1, h2, h3, h4, h6 "w" rfl⟩

/-! ## Serializer inline styles (src/lib/html-to-markdown.ts) -/

/-- The StyleInfo record accumulated while walking the tree. -/
structure StyleInfo where
  color : Option (List Char) := none
  backgroundColor : Option (List Char) := none
  fontSize : Option (List Char) := none
  bold : Bool := false
  italic : Bool := false
  underline : Bool := false
  strikethrough : Bool := false
  code : Bool := false
deriving DecidableEq, Repr

/-- hasColor in applyInlineStyles: style.color is truthy and not the
literal inherit. -/
def hasColorB (st : StyleInfo) : Bool :=
  match st.color with
  | none => false
  | some v => !v.isEmpty && v != chars "inherit"

/-- hasBg: style.backgroundColor is truthy and not transparent. -/
def hasBgB (st : StyleInfo) : Bool :=
  match st.backgroundColor with
  | none => false
  | some v => !v.isEmpty && v != chars "transparent"

/-- hasFontSize: style.fontSize is truthy. -/
def hasFsB (st : StyleInfo) : Bool :=
  match st.fontSize with
  | none => false
  | some v => !v.isEmpty

/-- The styleAttr string built up declaration by declaration, in the
source order color, background-color, font-size. -/
def styleDecls (st : StyleInfo) : List Char :=
  (if hasColorB st then chars "color:" ++ st.color.getD [] ++ chars ";" else []) ++
  (if hasBgB st then chars "background-color:" ++ st.backgroundColor.getD [] ++ chars ";" else []) ++
  (if hasFsB st then chars "font-size:" ++ st.fontSize.getD [] ++ chars ";" else [])

/-- applyInlineStyles: empty text stays empty; with no non-Markdown
attribute present the text passes through; otherwise the text is
wrapped in one span carrying the concatenated declarations. -/
def applyInlineStyles (text : List Char) (st : StyleInfo) : List Char :=
  if text = [] then []
  else if (!hasColorB st && !hasBgB st && !hasFsB st) = true then text
  else chars "<span style=\"" ++ styleDecls st ++ chars "\">" ++ text ++ chars "</span>"

/-- applyTextFormatting: wrap in Markdown inline delimiters in the
source order code, strikethrough, underline, bold, italic. -/
def applyTextFormatting (text : List Char) (st : StyleInfo) : List Char :=
  if text = [] then []
  else
    let r1 := if st.code then chars "`" ++ text ++ chars "`" else text
    let r2 := if st.strikethrough then chars "~~" ++ r1 ++ chars "~~" else r1
    let r3 := if st.underline then chars "<u>" ++ r2 ++ chars "</u>" else r2
    let r4 := if st.bold then chars "**" ++ r3 ++ chars "**" else r3
    if st.italic then chars "*" ++ r4 ++ chars "*" else r4

/-- processNode on a text node: Markdown formatting first, then the
style wrapper. -/
def serializeTextRun (text : List Char) (st : StyleInfo) : List Char :=
  if text = [] then [] else applyInlineStyles (applyTextFormatting text st) st

/-- The wrapper shape the spec describes: exactly one styled element
whose style attribute holds the concatenated declarations, never
nested per-attribute wrappers.  Written from the spec wording for the
refinement comparison. -/
def specSingleWrapper (decls : List Char) (text : List Char) : List Char :=
  chars "<span style=\"" ++ decls ++ chars "\">" ++ text ++ chars "</span>"

/-! ## applyStyle on a collapsed selection (MarkdownEditor.tsx) -/

/-- The color, highlight and font-size operations of applyStyle. -/
inductive StyleOp
  | colorOp (v : Option (List Char))
  | highlightOp (v : Option (List Char))
  | fontSizeOp (v : Option (List Char))
  | fontSizeIncrease
  | fontSizeDecrease
deriving DecidableEq, Repr

/-- The selection context applyStyle reads: whether a range exists,
whether it is collapsed, selection.toString(), and the computed font
size getFontSizeFromNode reports at the caret. -/
structure SelCtx where
  hasRange : Bool
  collapsed : Bool
  selectedText : List Char
  currentFontSize : Nat
deriving DecidableEq, Repr

/-- A span element inserted by applyStyle. -/
structure SpanNode where
  cls : List Char
  fontSize : Option (List Char)
  color : Option (List Char)
  background : Option (List Char)
  text : List Char
deriving DecidableEq, Repr

/-- Where the selection ends up after the operation. -/
inductive SelAfter
  | unchanged
  | collapsedOutsideSpan
  | contentsOfInserted
deriving DecidableEq, Repr

/-- The observable outcome of one applyStyle call. -/
structure StyleRes where
  inserted : Option SpanNode
  selAfter : SelAfter
deriving DecidableEq, Repr

/-- JS value || fallback for an optional string argument. -/
def orDefault (v : Option (List Char)) (d : List Char) : List Char :=
  match v with
  | some x => if x = [] then d else x
  | none => d

/-- A pixel count rendered as the font-size style value. -/
def pxValue (n : Nat) : List Char :=
  chars (toString n) ++ chars "px"

/-- Font size stepping constants of the source. -/
def FONT_SIZE_STEP : Nat := 4
def MAX_FONT_SIZE : Nat := 72
def MIN_FONT_SIZE : Nat := 10

/-- The color, highlight and font-size branches of applyStyle.
getRangeAt(0) throws when no range exists; color and highlight break
out early on a collapsed or empty selection; the font-size branches
unconditionally insert a span holding the selected text (empty when
collapsed) and select its contents. -/
def applyStyleSel (op : StyleOp) (ctx : SelCtx) : Except (List Char) StyleRes :=
  if ctx.hasRange = false then .error (chars "getRangeAt: no range")
  else match op with
  | .colorOp v =>
    if ctx.collapsed = true ∨ ctx.selectedText = [] then
      .ok ⟨none, .unchanged⟩
    else
      .ok ⟨some ⟨[], none, some (orDefault v (chars "inherit")), none, ctx.selectedText⟩,
        .collapsedOutsideSpan⟩
  | .highlightOp v =>
    if ctx.collapsed = true ∨ ctx.selectedText = [] then
      .ok ⟨none, .unchanged⟩
    else
      .ok ⟨some ⟨[], none, none, some (orDefault v (chars "transparent")), ctx.selectedText⟩,
        .collapsedOutsideSpan⟩
  | .fontSizeOp v =>
    .ok ⟨some ⟨chars "font-size-span", some (orDefault v (chars "16px")), none, none,
      ctx.selectedText⟩, .contentsOfInserted⟩
  | .fontSizeIncrease =>
    .ok ⟨some ⟨chars "font-size-span",
      some (pxValue (min (ctx.currentFontSize + FONT_SIZE_STEP) MAX_FONT_SIZE)), none, none,
      ctx.selectedText⟩, .contentsOfInserted⟩
  | .fontSizeDecrease =>
    .ok ⟨some ⟨chars "font-size-span",
      some (pxValue (max (ctx.currentFontSize - FONT_SIZE_STEP) MIN_FONT_SIZE)), none, none,
      ctx.selectedText⟩, .contentsOfInserted⟩

/-- C6: whenever the serializer emits a run carrying attributes with
no Markdown equivalent, applyInlineStyles wraps the text in exactly
one styled wrapper (the spec-described specSingleWrapper shape) whose
style attribute concatenates all the declarations; in particular a
run with both background-color and font-size yields one wrapper
carrying both declarations, never nested per-attribute wrappers. -/
theorem single_wrapper_combined (text : List Char) (st : StyleInfo)
    (htext : text ≠ [])
    (hsome : (hasColorB st || hasBgB st || hasFsB st) = true) :
    applyInlineStyles text st = specSingleWrapper (styleDecls st) text
    ∧ (∀ b f, st.color = none → st.backgroundColor = some b → st.fontSize = some f →
        b ≠ [] → b ≠ chars "transparent" → f ≠ [] →
        styleDecls st = chars "background-color:" ++ b ++ chars ";" ++
          (chars "font-size:" ++ f ++ chars ";")) := by
  constructor
  · unfold applyInlineStyles specSingleWrapper
    rw [if_neg htext]
    have hc : ¬ ((!hasColorB st && !hasBgB st && !hasFsB st) = true) := by
      cases h1 : hasColorB st <;> cases h2 : hasBgB st <;> cases h3 : hasFsB st <;>
        simp_all
    rw [if_neg hc]
  · intro b f hcn hbg hfs hb1 hb2 hf1
    have h1 : hasColorB st = false := by rw [hasColorB, hcn]
    have h2 : hasBgB st = true := by
      rw [hasBgB, hbg]
      simp [hb1, hb2, List.isEmpty_iff]
    have h3 : hasFsB st = true := by
      rw [hasFsB, hfs]
      simp [hf1, List.isEmpty_iff]
    unfold styleDecls
    rw [h1, h2, h3, hbg, hfs]
    simp

/-- Witness for C6 with a red background and a 20px font size. -/
theorem single_wrapper_combined_witness :
    applyInlineStyles (chars "x")
        ⟨none, some (chars "red"), some (chars "20px"), false, false, false, false, false⟩ =
      specSingleWrapper
        (styleDecls ⟨none, some (chars "red"), some (chars "20px"), false, false, false, false, false⟩)
        (chars "x")
    ∧ styleDecls ⟨none, some (chars "red"), some (chars "20px"), false, false, false, false, false⟩ =
        chars "background-color:" ++ chars "red" ++ chars ";" ++
          (chars "font-size:" ++ chars "20px" ++ chars ";") := by
  have h := single_wrapper_combined (chars "x")
    ⟨none, some (chars "red"), some (chars "20px"), false, false, false, false, false⟩
    (by decide) (by decide)
  exact ⟨h.1, h.2 (chars "red") (chars "20px") rfl rfl rfl (by decide) (by decide) (by decide)⟩

/-- C5 counterexample: a font-size operation on a collapsed selection
is not a silent no-op as the claim states: it inserts an empty
font-size span at the caret and selects its contents, so subsequent
typing inherits the size. -/
theorem collapsed_fontsize_not_noop :
    applyStyleSel (.fontSizeOp (some (chars "20px"))) ⟨true, true, [], 16⟩ =
      .ok ⟨some ⟨chars "font-size-span", some (chars "20px"), none, none, []⟩,
        .contentsOfInserted⟩
    ∧ applyStyleSel (.fontSizeOp (some (chars "20px"))) ⟨true, true, [], 16⟩ ≠
      .ok ⟨none, .unchanged⟩ := by
  refine ⟨rfl, ?_⟩
  intro h
  have h2 : (Except.ok ⟨some ⟨chars "font-size-span", some (chars "20px"), none, none, []⟩,
      .contentsOfInserted⟩ : Except (List Char) StyleRes) = .ok ⟨none, .unchanged⟩ := h
  simp at h2

/-- C5 amended: on a collapsed selection (empty selected text) with a
range present, color and highlight are silent no-ops: nothing is
inserted, the selection is untouched and no error is surfaced; the
font-size set, grow and shrink operations, which lack the collapsed
guard, insert an empty span carrying the computed size (grow and
shrink step by 4px clamped to 72 and 10) and select its contents,
arming font-size inheritance for subsequent typing; no operation
surfaces an error. -/
theorem collapsed_style_ops (ctx : SelCtx) (v : Option (List Char))
    (hr : ctx.hasRange = true) (hc : ctx.collapsed = true)
    (hs : ctx.selectedText = []) :
    applyStyleSel (.colorOp v) ctx = .ok ⟨none, .unchanged⟩
    ∧ applyStyleSel (.highlightOp v) ctx = .ok ⟨none, .unchanged⟩
    ∧ applyStyleSel (.fontSizeOp v) ctx =
        .ok ⟨some ⟨chars "font-size-span", some (orDefault v (chars "16px")), none, none, []⟩,
          .contentsOfInserted⟩
    ∧ applyStyleSel .fontSizeIncrease ctx =
        .ok ⟨some ⟨chars "font-size-span",
          some (pxValue (min (ctx.currentFontSize + FONT_SIZE_STEP) MAX_FONT_SIZE)),
          none, none, []⟩, .contentsOfInserted⟩
    ∧ applyStyleSel .fontSizeDecrease ctx =
        .ok ⟨some ⟨chars "font-size-span",
          some (pxValue (max (ctx.currentFontSize - FONT_SIZE_STEP) MIN_FONT_SIZE)),
          none, none, []⟩, .contentsOfInserted⟩ := by
  refine ⟨?_, ?_, ?_, ?_, ?_⟩ <;> simp [applyStyleSel, hr, hc, hs]

/-- Witness for C5 amended at a concrete collapsed context. -/
theorem collapsed_style_ops_witness :
    applyStyleSel (.colorOp (some (chars "#ef4444"))) ⟨true, true, [], 16⟩ =
      .ok ⟨none, .unchanged⟩
    ∧ applyStyleSel (.highlightOp (some (chars "#ef4444"))) ⟨true, true, [], 16⟩ =
      .ok ⟨none, .unchanged⟩
    ∧ applyStyleSel .fontSizeIncrease ⟨true, true, [], 16⟩ =
      .ok ⟨some ⟨chars "font-size-span", some (pxValue 20), none, none, []⟩,
        .contentsOfInserted⟩ := by
  have h := collapsed_style_ops ⟨true, true, [], 16⟩ (some (chars "#ef4444")) rfl rfl rfl
  exact ⟨h.1, h.2.1, h.2.2.2.1⟩

/-! ## Export cleanup pipeline (htmlToMarkdown, downloadMarkdown) -/

/-- Head-anchored matcher for the empty-bold cleanup regex: two
stars, any whitespace, two stars; returns the matched length and the
(empty) replacement. -/
def mEmptyBold (s : List Char) : Option (Nat × List Char) :=
  if s.take 2 = ['*', '*'] then
    if ((s.drop 2).dropWhile isJsSpace).take 2 = ['*', '*'] then
      some (2 + ((s.drop 2).takeWhile isJsSpace).length + 2, [])
    else none
  else none

/-- Head-anchored matcher for a single-delimiter empty wrapper (the
empty-italic star regex, which also fires on any bare double star,
and the empty-code backtick regex). -/
def mEmptySingle (d : Char) (s : List Char) : Option (Nat × List Char) :=
  if s.take 1 = [d] then
    if ((s.drop 1).dropWhile isJsSpace).take 1 = [d] then
      some (1 + ((s.drop 1).takeWhile isJsSpace).length + 1, [])
    else none
  else none

/-- Head-anchored matcher for the empty-strikethrough cleanup regex. -/
def mEmptyTilde (s : List Char) : Option (Nat × List Char) :=
  if s.take 2 = ['~', '~'] then
    if ((s.drop 2).dropWhile isJsSpace).take 2 = ['~', '~'] then
      some (2 + ((s.drop 2).takeWhile isJsSpace).length + 2, [])
    else none
  else none

/-- Head-anchored matcher for the empty-underline cleanup regex. -/
def mEmptyU (s : List Char) : Option (Nat × List Char) :=
  if s.take 3 = ['<', 'u', '>'] then
    if ((s.drop 3).dropWhile isJsSpace).take 4 = ['<', '/', 'u', '>'] then
      some (3 + ((s.drop 3).takeWhile isJsSpace).length + 4, [])
    else none
  else none

/-- Head-anchored matcher for the three-or-more-newlines collapse:
the greedy run is replaced by one blank line. -/
def mNewlines (s : List Char) : Option (Nat × List Char) :=
  if s.take 1 = ['\n'] then
    if 3 ≤ (s.takeWhile (fun c => c = '\n')).length then
      some ((s.takeWhile (fun c => c = '\n')).length, ['\n', '\n'])
    else none
  else none

/-- One pass of String.prototype.replace with a global regex: walk
left to right, at each position either take the head-anchored match
(emitting the replacement and skipping it) or keep the character.
Fuel bounds the walk; it is set to the list length at the top call. -/
def replaceScanF (m : List Char → Option (Nat × List Char)) :
    Nat → List Char → List Char
  | 0, l => l
  | _ + 1, [] => []
  | fuel + 1, c :: rest =>
    match m (c :: rest) with
    | some (k, rep) => rep ++ replaceScanF m fuel (rest.drop (k - 1))
    | none => c :: replaceScanF m fuel rest

/-- A whole global-replace pass. -/
def replaceAll (m : List Char → Option (Nat × List Char)) (l : List Char) : List Char :=
  replaceScanF m l.length l

/-- The anchored leading-newline trim. -/
def dropLeadingNewlines (l : List Char) : List Char :=
  l.dropWhile (fun c => c = '\n')

/-- The anchored trailing-newline collapse: a nonempty trailing
newline run becomes one newline. -/
def collapseTrailingNewlines (l : List Char) : List Char :=
  if (l.reverse.takeWhile (fun c => c = '\n')).length = 0 then l
  else l.take (l.length - (l.reverse.takeWhile (fun c => c = '\n')).length) ++ ['\n']

/-- The cleanup chain of htmlToMarkdown, in source order: empty bold,
empty italic, empty strikethrough, empty underline, empty code,
newline collapse, leading trim, trailing collapse. -/
def cleanupMarkdown (l : List Char) : List Char :=
  collapseTrailingNewlines (dropLeadingNewlines
    (replaceAll mNewlines
      (replaceAll (mEmptySingle backtickChar)
        (replaceAll mEmptyU
          (replaceAll mEmptyTilde
            (replaceAll (mEmptySingle '*')
              (replaceAll mEmptyBold l)))))))

/-- htmlToMarkdown: the title heading line, a blank line, then the
serialized body, run through the cleanup chain.  The body parameter
stands for the concatenated processNode output of the parsed
document body. -/
def htmlToMarkdown (body : List Char) (title : List Char) : List Char :=
  cleanupMarkdown (chars "# " ++ title ++ chars "\n\n" ++ body)

/-- The download attribute of the anchor created by downloadMarkdown. -/
def downloadName (title : List Char) : List Char :=
  title ++ chars ".md"

/-! lemmas about the cleanup pipeline (C7) -/

theorem replaceScanF_skipSafe (m : List Char → Option (Nat × List Char)) :
    ∀ (P Q : List Char) (fuel : Nat),
      (∀ c ∈ P, ∀ s, m (c :: s) = none) →
      replaceScanF m (P.length + fuel) (P ++ Q) = P ++ replaceScanF m fuel Q := by
  intro P
  induction P with
  | nil =>
    intro Q fuel _
    simp
  | cons c P' ih =>
    intro Q fuel hm
    have hlen : (c :: P').length + fuel = (P'.length + fuel) + 1 := by
      rw [List.length_cons]; omega
    rw [hlen]
    show replaceScanF m (P'.length + fuel + 1) (c :: (P' ++ Q)) = _
    rw [replaceScanF, hm c (by simp) (P' ++ Q)]
    show c :: replaceScanF m (P'.length + fuel) (P' ++ Q) = _
    rw [ih Q fuel (fun d hd s => hm d (by simp [hd]) s)]
    rfl

theorem replaceAll_skipSafe (m : List Char → Option (Nat × List Char))
    (P Q : List Char) (hm : ∀ c ∈ P, ∀ s, m (c :: s) = none) :
    replaceAll m (P ++ Q) = P ++ replaceAll m Q := by
  unfold replaceAll
  rw [List.length_append]
  exact replaceScanF_skipSafe m P Q Q.length hm

theorem mEmptyBold_none {c : Char} (s : List Char) (h : c ≠ '*') :
    mEmptyBold (c :: s) = none := by
  unfold mEmptyBold
  rw [if_neg]
  intro hc
  rw [List.take_succ_cons] at hc
  injection hc with h1 _
  exact h h1

theorem mEmptySingle_none {c d : Char} (s : List Char) (h : c ≠ d) :
    mEmptySingle d (c :: s) = none := by
  unfold mEmptySingle
  rw [if_neg]
  intro hc
  rw [List.take_succ_cons] at hc
  injection hc with h1 _
  exact h h1

theorem mEmptyTilde_none {c : Char} (s : List Char) (h : c ≠ '~') :
    mEmptyTilde (c :: s) = none := by
  unfold mEmptyTilde
  rw [if_neg]
  intro hc
  rw [List.take_succ_cons] at hc
  injection hc with h1 _
  exact h h1

theorem mEmptyU_none {c : Char} (s : List Char) (h : c ≠ '<') :
    mEmptyU (c :: s) = none := by
  unfold mEmptyU
  rw [if_neg]
  intro hc
  rw [List.take_succ_cons] at hc
  injection hc with h1 _
  exact h h1

theorem mNewlines_none {c : Char} (s : List Char) (h : c ≠ '\n') :
    mNewlines (c :: s) = none := by
  unfold mNewlines
  rw [if_neg]
  intro hc
  rw [List.take_succ_cons] at hc
  injection hc with h1 _
  exact h h1

theorem dropLeadingNewlines_cons {c : Char} (l : List Char) (h : c ≠ '\n') :
    dropLeadingNewlines (c :: l) = c :: l := by
  unfold dropLeadingNewlines
  rw [List.dropWhile_cons]
  simp [h]

theorem collapseTrailing_keepsFront (P R : List Char)
    (hnl : ∀ c ∈ P, c ≠ '\n') :
    P <+: collapseTrailingNewlines (P ++ R) := by
  unfold collapseTrailingNewlines
  split
  · exact ⟨R, rfl⟩
  · have hkR : (((P ++ R).reverse.takeWhile (fun c => c = '\n')).length ≤ R.length) := by
      rw [List.reverse_append, List.takeWhile_append]
      split
      · have hPnil : P.reverse.takeWhile (fun c => decide (c = '\n')) = [] := by
          cases hrev : P.reverse with
          | nil => rfl
          | cons a t =>
            rw [List.takeWhile_cons]
            have ha : a ∈ P := by
              rw [← List.mem_reverse, hrev]
              simp
            simp [hnl a ha]
        rw [hPnil]
        simp
      · calc (R.reverse.takeWhile (fun c => decide (c = '\n'))).length
            ≤ R.reverse.length := (List.takeWhile_prefix _).length_le
          _ = R.length := List.length_reverse R
    have hsplit : (P ++ R).length - ((P ++ R).reverse.takeWhile (fun c => c = '\n')).length =
        P.length + (R.length - ((P ++ R).reverse.takeWhile (fun c => c = '\n')).length) := by
      rw [List.length_append]
      omega
    rw [hsplit, List.take_append]
    exact ⟨_, (List.append_assoc _ _ _).symm⟩

/-- C7 counterexample: with the body empty and the title consisting
of four tildes, the cleanup rewrites the title heading itself, so the
export does not begin with the hash, space and title. -/
theorem export_title_rewritten :
    htmlToMarkdown [] (chars "~~~~") = chars "# " ++ ['\n']
    ∧ (chars "# ~~~~").isPrefixOf (htmlToMarkdown [] (chars "~~~~")) = false := by
  decide

theorem dropLeading_hash (t R : List Char) :
    dropLeadingNewlines ((chars "# " ++ t) ++ R) = (chars "# " ++ t) ++ R := by
  show dropLeadingNewlines ('#' :: ((' ' :: t) ++ R)) = _
  rw [dropLeadingNewlines_cons _ (by decide)]
  rfl

/-- C7 amended: provided the title avoids the cleanup trigger
characters (star, tilde, less-than, backtick) and newlines, the
export begins with hash, space and the title; the artifact is named
title dot md; and the cleanup chain collapses runs of three or more
newlines to one blank line, strips empty bold, italic, strikethrough,
underline and code wrappers in a single pass, trims leading blank
lines and collapses trailing newlines to exactly one. -/
theorem toMarkdown_shape (title body : List Char)
    (hsafe : ∀ c ∈ title,
      c ≠ '*' ∧ c ≠ '~' ∧ c ≠ '<' ∧ c ≠ backtickChar ∧ c ≠ '\n') :
    (chars "# " ++ title) <+: htmlToMarkdown body title
    ∧ downloadName title = title ++ chars ".md"
    ∧ cleanupMarkdown (chars "a\n\n\n\n\nb") = chars "a\n\nb"
    ∧ cleanupMarkdown (chars "** **x") = chars "x"
    ∧ cleanupMarkdown (chars "*  *x") = chars "x"
    ∧ cleanupMarkdown (chars "~~ ~~x") = chars "x"
    ∧ cleanupMarkdown (chars "<u> </u>x") = chars "x"
    ∧ cleanupMarkdown (chars "` `x") = chars "x"
    ∧ cleanupMarkdown (chars "\n\nx\n\n\n") = chars "x\n" := by
  have hmem : ∀ c ∈ chars "# " ++ title, c = '#' ∨ c = ' ' ∨ c ∈ title := by
    intro c hc
    rw [List.mem_append] at hc
    cases hc with
    | inl h =>
      have h2 : c ∈ ['#', ' '] := h
      simp at h2
      rcases h2 with h2 | h2
      · exact Or.inl h2
      · exact Or.inr (Or.inl h2)
    | inr h => exact Or.inr (Or.inr h)
  have hstar : ∀ c ∈ chars "# " ++ title, c ≠ '*' := by
    intro c hc
    rcases hmem c hc with h | h | h
    · subst h; decide
    · subst h; decide
    · exact (hsafe c h).1
  have htilde : ∀ c ∈ chars "# " ++ title, c ≠ '~' := by
    intro c hc
    rcases hmem c hc with h | h | h
    · subst h; decide
    · subst h; decide
    · exact (hsafe c h).2.1
  have hlt : ∀ c ∈ chars "# " ++ title, c ≠ '<' := by
    intro c hc
    rcases hmem c hc with h | h | h
    · subst h; decide
    · subst h; decide
    · exact (hsafe c h).2.2.1
  have htick : ∀ c ∈ chars "# " ++ title, c ≠ backtickChar := by
    intro c hc
    rcases hmem c hc with h | h | h
    · subst h; decide
    · subst h; decide
    · exact (hsafe c h).2.2.2.1
  have hnl : ∀ c ∈ chars "# " ++ title, c ≠ '\n' := by
    intro c hc
    rcases hmem c hc with h | h | h
    · subst h; decide
    · subst h; decide
    · exact (hsafe c h).2.2.2.2
  refine ⟨?_, rfl, by decide, by decide, by decide, by decide, by decide, by decide, by decide⟩
  unfold htmlToMarkdown cleanupMarkdown
  rw [List.append_assoc (chars "# " ++ title)]
  rw [replaceAll_skipSafe mEmptyBold _ _ (fun c hc s => mEmptyBold_none s (hstar c hc))]
  rw [replaceAll_skipSafe (mEmptySingle '*') _ _
    (fun c hc s => mEmptySingle_none s (hstar c hc))]
  rw [replaceAll_skipSafe mEmptyTilde _ _ (fun c hc s => mEmptyTilde_none s (htilde c hc))]
  rw [replaceAll_skipSafe mEmptyU _ _ (fun c hc s => mEmptyU_none s (hlt c hc))]
  rw [replaceAll_skipSafe (mEmptySingle backtickChar) _ _
    (fun c hc s => mEmptySingle_none s (htick c hc))]
  rw [replaceAll_skipSafe mNewlines _ _ (fun c hc s => mNewlines_none s (hnl c hc))]
  rw [dropLeading_hash]
  exact collapseTrailing_keepsFront _ _ hnl

/-- Witness for C7 amended at a concrete safe title and body. -/
theorem toMarkdown_shape_witness :
    (chars "# Doc") <+: htmlToMarkdown (chars "\nhello\n\n") (chars "Doc")
    ∧ downloadName (chars "Doc") = chars "Doc" ++ chars ".md" := by
  have h := toMarkdown_shape (chars "Doc") (chars "\nhello\n\n") (by decide)
  exact ⟨h.1, h.2.1⟩

/-! ## Block-level markdown shortcuts (applyMarkdownShortcut,
ensureIsolatedBlock) -/

/-- The block element tags of the editing surface. -/
inductive BTag
  | pB
  | divB
  | h1B
  | h2B
  | h3B
  | blockquoteB
  | liB
deriving DecidableEq, Repr

/-- The kind of a block after a shortcut conversion: a plain tagged
element, a list item inside a new ul or ol, or a horizontal rule. -/
inductive BKind
  | tagged (t : BTag)
  | bulletItem
  | orderedItem
  | hrB
deriving DecidableEq, Repr

/-- A block with its content lines (segments separated by explicit
line breaks). -/
structure BlockM where
  kind : BKind
  lines : List (List Char)
deriving DecidableEq, Repr

/-- The caret context inside one block: the block tag, the full lines
before the caret line, the caret-line text before the caret (assumed
to live in one text node with the caret at its end), the caret-line
text after the caret, and the lines after.  Explicit line-break
markers separate the lines. -/
structure BlockCaretCtx where
  tag : BTag
  linesBefore : List (List Char)
  caretPre : List Char
  caretPost : List Char
  linesAfter : List (List Char)
deriving DecidableEq, Repr

/-- String.prototype.trim on both ends. -/
def trimChars (l : List Char) : List Char :=
  ((l.dropWhile isJsSpace).reverse.dropWhile isJsSpace).reverse

/-- The trailing line of the pre-caret text, trimmed, as
applyMarkdownShortcut computes currentLine (split on newline, pop,
trim). -/
def currentLineOf (ctx : BlockCaretCtx) : List Char :=
  trimChars ctx.caretPre

/-- What remains of the caret-line pre-caret text once
deleteMarkdownTrigger removed the last currentLine-many characters
before the caret. -/
def caretPreAfterDelete (ctx : BlockCaretCtx) : List Char :=
  ctx.caretPre.take (ctx.caretPre.length - (currentLineOf ctx).length)

/-- The ensureIsolatedBlock test: the text before the caret in the
block trims to nothing. -/
def allWhitespace (lines : List (List Char)) : Bool :=
  lines.all fun l => (trimChars l).isEmpty

/-- The outcome of one applyMarkdownShortcut call: whether the key
default was prevented, whether the shortcut handled the key, the
blocks replacing the current block, and the index of the block
holding the caret. -/
structure BlockShortcutRes where
  prevented : Bool
  handled : Bool
  blocks : List BlockM
  caretBlock : Nat
deriving DecidableEq, Repr

/-- The untouched result when no shortcut applies. -/
def noopRes (ctx : BlockCaretCtx) : BlockShortcutRes :=
  ⟨false, false,
    [⟨.tagged ctx.tag, ctx.linesBefore ++ [ctx.caretPre ++ ctx.caretPost] ++ ctx.linesAfter⟩],
    0⟩

/-- The heading and blockquote conversion: delete the trigger, isolate
the current line with ensureIsolatedBlock (when earlier lines hold
content, everything from the caret on moves to a fresh block and the
earlier content stays behind), then convertBlockTag retags the
isolated block keeping its children. -/
def convertTagged (ctx : BlockCaretCtx) (t : BTag) : BlockShortcutRes :=
  if allWhitespace (ctx.linesBefore ++ [caretPreAfterDelete ctx]) then
    ⟨true, true,
      [⟨.tagged t,
        ctx.linesBefore ++ [caretPreAfterDelete ctx ++ ctx.caretPost] ++ ctx.linesAfter⟩],
      0⟩
  else
    ⟨true, true,
      [⟨.tagged ctx.tag, ctx.linesBefore ++ [caretPreAfterDelete ctx]⟩,
       ⟨.tagged t, [ctx.caretPost] ++ ctx.linesAfter⟩],
      1⟩

/-- The list conversion: delete the trigger, isolate the line, then
replace the isolated block by a fresh ul or ol holding one empty list
item (replaceChild drops the isolated block's children). -/
def convertList (ctx : BlockCaretCtx) (ordered : Bool) : BlockShortcutRes :=
  if allWhitespace (ctx.linesBefore ++ [caretPreAfterDelete ctx]) then
    ⟨true, true, [⟨if ordered then .orderedItem else .bulletItem, [[]]⟩], 0⟩
  else
    ⟨true, true,
      [⟨.tagged ctx.tag, ctx.linesBefore ++ [caretPreAfterDelete ctx]⟩,
       ⟨if ordered then .orderedItem else .bulletItem, [[]]⟩],
      1⟩

/-- Modelled from the spec: the horizontal-rule branch calls the
browser execCommand insertHorizontalRule and insertParagraph, whose
behavior is not part of this repository.  The spec says the trigger
is deleted and replaced by a horizontal rule followed by a fresh
paragraph: the block content before the caret stays behind, an hr
block follows, then a fresh paragraph holding the content after the
caret, with the caret in that paragraph. -/
def insertHrRes (ctx : BlockCaretCtx) : BlockShortcutRes :=
  ⟨true, true,
    [⟨.tagged ctx.tag, ctx.linesBefore ++ [caretPreAfterDelete ctx]⟩,
     ⟨.hrB, []⟩,
     ⟨.tagged .pB, [ctx.caretPost] ++ ctx.linesAfter⟩],
    2⟩

/-- applyMarkdownShortcut: with a collapsed caret, on space the
trailing trimmed line is matched verbatim against the trigger table
(hash to heading one, double hash to heading two, triple hash to
heading three, greater-than to blockquote, dash or star to a bulleted
list item, one-dot to a numbered list item); on enter, three dashes
or three stars become a horizontal rule plus a fresh paragraph.  On a
match the trigger is deleted, the line isolated, the kind changed and
the key default prevented; otherwise nothing happens. -/
def applyMarkdownShortcut (key : List Char) (collapsed : Bool)
    (ctx : BlockCaretCtx) : BlockShortcutRes :=
  if collapsed = false then noopRes ctx
  else if key = [' '] then
    if currentLineOf ctx = chars "#" then convertTagged ctx .h1B
    else if currentLineOf ctx = chars "##" then convertTagged ctx .h2B
    else if currentLineOf ctx = chars "###" then convertTagged ctx .h3B
    else if currentLineOf ctx = chars ">" then convertTagged ctx .blockquoteB
    else if currentLineOf ctx = chars "-" ∨ currentLineOf ctx = chars "*" then
      convertList ctx false
    else if currentLineOf ctx = chars "1." then convertList ctx true
    else noopRes ctx
  else if key = chars "Enter"
      ∧ (currentLineOf ctx = chars "---" ∨ currentLineOf ctx = chars "***") then
    insertHrRes ctx
  else noopRes ctx

/-! ## Enter handling in handleKeyDown (C3) -/

/-- What the Enter handler ends up doing. -/
inductive EnterAction
  | native
  | cleanParagraph
  | execInsertParagraph
  | hrConversion
deriving DecidableEq, Repr

/-- The observable context handleKeyDown reads on an Enter keydown. -/
structure EnterCtx where
  shift : Bool
  composing : Bool
  inBulletList : Bool
  inOrderedList : Bool
  insideInline : Bool
  resetFlag : Bool
  hasCurrentBlock : Bool
  trailingLine : List Char
deriving DecidableEq, Repr

/-- The observable outcome of one Enter keydown. -/
structure EnterRes where
  prevented : Bool
  action : EnterAction
  newBlockKind : Option BKind
  exitedInline : Bool
  clearedTypingState : Bool
  resetFlagAfter : Bool
deriving DecidableEq, Repr

/-- handleKeyDown restricted to the Enter key, in source branch order:
composition passes through; outside lists the handler consumes the
event, moves the caret out of inline formatting, clears the typing
state and inserts a clean paragraph after the current block (the
created block is always a plain p, whatever the current block kind);
inside inline formatting it consumes the event and falls back to
execCommand insertParagraph after exiting the formatting; a pending
reset flag inside a list is cleared with the event left to native
handling; then the block shortcut recognizer may turn a trailing
dash-dash-dash or star-star-star line into a horizontal rule;
otherwise the event is native. -/
def handleEnterKey (c : EnterCtx) : EnterRes :=
  if c.composing = true then ⟨false, .native, none, false, false, c.resetFlag⟩
  else if c.shift = false ∧ c.inBulletList = false ∧ c.inOrderedList = false then
    ⟨true, if c.hasCurrentBlock then .cleanParagraph else .execInsertParagraph,
     if c.hasCurrentBlock then some (BKind.tagged .pB) else none,
     c.insideInline, true, false⟩
  else if c.shift = false ∧ c.insideInline = true then
    ⟨true, .execInsertParagraph, none, true, true, false⟩
  else if c.resetFlag = true then
    if c.inBulletList = true ∨ c.inOrderedList = true then
      ⟨false, .native, none, false, false, false⟩
    else
      ⟨true, if c.hasCurrentBlock then .cleanParagraph else .execInsertParagraph,
       if c.hasCurrentBlock then some (BKind.tagged .pB) else none,
       c.insideInline, true, false⟩
  else if trimChars c.trailingLine = chars "---" ∨ trimChars c.trailingLine = chars "***" then
    ⟨true, .hrConversion, some (BKind.tagged .pB), false, false, c.resetFlag⟩
  else ⟨false, .native, none, false, false, c.resetFlag⟩

/-! lemmas and specs for the block shortcut table (C2) -/

/-- The behavior C2 asserts for one space trigger producing a tagged
block: key suppressed, trigger deleted, line isolated (in place when
nothing precedes it, by splitting otherwise) and its kind changed. -/
def spaceTaggedSpec (trig : List Char) (t : BTag) : Prop :=
  ∀ ctx : BlockCaretCtx, ctx.caretPre = trig →
    (applyMarkdownShortcut [' '] true ctx).prevented = true
    ∧ (applyMarkdownShortcut [' '] true ctx).handled = true
    ∧ (allWhitespace (ctx.linesBefore ++ [[]]) = true →
        (applyMarkdownShortcut [' '] true ctx).blocks =
          [⟨.tagged t, ctx.linesBefore ++ [ctx.caretPost] ++ ctx.linesAfter⟩]
        ∧ (applyMarkdownShortcut [' '] true ctx).caretBlock = 0)
    ∧ (allWhitespace (ctx.linesBefore ++ [[]]) = false →
        (applyMarkdownShortcut [' '] true ctx).blocks =
          [⟨.tagged ctx.tag, ctx.linesBefore ++ [[]]⟩,
           ⟨.tagged t, [ctx.caretPost] ++ ctx.linesAfter⟩]
        ∧ (applyMarkdownShortcut [' '] true ctx).caretBlock = 1)

/-- The behavior C2 asserts for one space trigger producing a list
item. -/
def spaceListSpec (trig : List Char) (ordered : Bool) : Prop :=
  ∀ ctx : BlockCaretCtx, ctx.caretPre = trig →
    (applyMarkdownShortcut [' '] true ctx).prevented = true
    ∧ (applyMarkdownShortcut [' '] true ctx).handled = true
    ∧ (allWhitespace (ctx.linesBefore ++ [[]]) = true →
        (applyMarkdownShortcut [' '] true ctx).blocks =
          [⟨if ordered then .orderedItem else .bulletItem, [[]]⟩]
        ∧ (applyMarkdownShortcut [' '] true ctx).caretBlock = 0)
    ∧ (allWhitespace (ctx.linesBefore ++ [[]]) = false →
        (applyMarkdownShortcut [' '] true ctx).blocks =
          [⟨.tagged ctx.tag, ctx.linesBefore ++ [[]]⟩,
           ⟨if ordered then .orderedItem else .bulletItem, [[]]⟩]
        ∧ (applyMarkdownShortcut [' '] true ctx).caretBlock = 1)

/-- The behavior C2 asserts for an enter trigger: the trigger is
deleted and replaced by a horizontal rule followed by a fresh
paragraph, with the key suppressed. -/
def enterHrSpec (trig : List Char) : Prop :=
  ∀ ctx : BlockCaretCtx, ctx.caretPre = trig →
    applyMarkdownShortcut (chars "Enter") true ctx =
      ⟨true, true,
        [⟨.tagged ctx.tag, ctx.linesBefore ++ [[]]⟩, ⟨.hrB, []⟩,
         ⟨.tagged .pB, [ctx.caretPost] ++ ctx.linesAfter⟩], 2⟩

theorem applyMS_space_chain (ctx : BlockCaretCtx) :
    applyMarkdownShortcut [' '] true ctx =
      (if currentLineOf ctx = chars "#" then convertTagged ctx .h1B
       else if currentLineOf ctx = chars "##" then convertTagged ctx .h2B
       else if currentLineOf ctx = chars "###" then convertTagged ctx .h3B
       else if currentLineOf ctx = chars ">" then convertTagged ctx .blockquoteB
       else if currentLineOf ctx = chars "-" ∨ currentLineOf ctx = chars "*" then
         convertList ctx false
       else if currentLineOf ctx = chars "1." then convertList ctx true
       else noopRes ctx) := by
  unfold applyMarkdownShortcut
  rw [if_neg (by decide), if_pos rfl]

theorem convertTagged_spec (ctx : BlockCaretCtx) (t : BTag)
    (hdel : caretPreAfterDelete ctx = []) :
    (convertTagged ctx t).prevented = true
    ∧ (convertTagged ctx t).handled = true
    ∧ (allWhitespace (ctx.linesBefore ++ [[]]) = true →
        (convertTagged ctx t).blocks =
          [⟨.tagged t, ctx.linesBefore ++ [ctx.caretPost] ++ ctx.linesAfter⟩]
        ∧ (convertTagged ctx t).caretBlock = 0)
    ∧ (allWhitespace (ctx.linesBefore ++ [[]]) = false →
        (convertTagged ctx t).blocks =
          [⟨.tagged ctx.tag, ctx.linesBefore ++ [[]]⟩,
           ⟨.tagged t, [ctx.caretPost] ++ ctx.linesAfter⟩]
        ∧ (convertTagged ctx t).caretBlock = 1) := by
  unfold convertTagged
  rw [hdel]
  refine ⟨by split <;> rfl, by split <;> rfl, ?_, ?_⟩
  · intro hws
    rw [if_pos hws]
    exact ⟨rfl, rfl⟩
  · intro hws
    rw [if_neg (by simp [hws])]
    exact ⟨rfl, rfl⟩

theorem convertList_spec (ctx : BlockCaretCtx) (ordered : Bool)
    (hdel : caretPreAfterDelete ctx = []) :
    (convertList ctx ordered).prevented = true
    ∧ (convertList ctx ordered).handled = true
    ∧ (allWhitespace (ctx.linesBefore ++ [[]]) = true →
        (convertList ctx ordered).blocks =
          [⟨if ordered then .orderedItem else .bulletItem, [[]]⟩]
        ∧ (convertList ctx ordered).caretBlock = 0)
    ∧ (allWhitespace (ctx.linesBefore ++ [[]]) = false →
        (convertList ctx ordered).blocks =
          [⟨.tagged ctx.tag, ctx.linesBefore ++ [[]]⟩,
           ⟨if ordered then .orderedItem else .bulletItem, [[]]⟩]
        ∧ (convertList ctx ordered).caretBlock = 1) := by
  unfold convertList
  rw [hdel]
  refine ⟨by split <;> rfl, by split <;> rfl, ?_, ?_⟩
  · intro hws
    rw [if_pos hws]
    exact ⟨rfl, rfl⟩
  · intro hws
    rw [if_neg (by simp [hws])]
    exact ⟨rfl, rfl⟩

theorem caretPreAfterDelete_nil (ctx : BlockCaretCtx) (trig : List Char)
    (hpre : ctx.caretPre = trig) (hcl : currentLineOf ctx = trig) :
    caretPreAfterDelete ctx = [] := by
  unfold caretPreAfterDelete
  rw [hcl, hpre, Nat.sub_self, List.take_zero]

/-- C2: each row of the block-shortcut table behaves as stated: on
space with a collapsed caret whose trailing pre-caret line is exactly
the trigger, the key is suppressed, the trigger deleted, the current
line isolated into its own block (in place when the line is the whole
block content) and that block kind becomes the row's kind; on enter
with trailing three dashes or three stars, the trigger is replaced by
a horizontal rule followed by a fresh paragraph holding the caret. -/
theorem block_shortcut_conversion :
    spaceTaggedSpec (chars "#") .h1B
    ∧ spaceTaggedSpec (chars "##") .h2B
    ∧ spaceTaggedSpec (chars "###") .h3B
    ∧ spaceTaggedSpec (chars ">") .blockquoteB
    ∧ spaceListSpec (chars "-") false
    ∧ spaceListSpec (chars "*") false
    ∧ spaceListSpec (chars "1.") true
    ∧ enterHrSpec (chars "---")
    ∧ enterHrSpec (chars "***") := by
  refine ⟨?_, ?_, ?_, ?_, ?_, ?_, ?_, ?_, ?_⟩
  · intro ctx hpre
    have hcl : currentLineOf ctx = chars "#" := by
      unfold currentLineOf
      rw [hpre]
      decide
    rw [applyMS_space_chain, hcl, if_pos rfl]
    exact convertTagged_spec ctx _ (caretPreAfterDelete_nil ctx _ hpre hcl)
  · intro ctx hpre
    have hcl : currentLineOf ctx = chars "##" := by
      unfold currentLineOf
      rw [hpre]
      decide
    rw [applyMS_space_chain, hcl, if_neg (by decide), if_pos rfl]
    exact convertTagged_spec ctx _ (caretPreAfterDelete_nil ctx _ hpre hcl)
  · intro ctx hpre
    have hcl : currentLineOf ctx = chars "###" := by
      unfold currentLineOf
      rw [hpre]
      decide
    rw [applyMS_space_chain, hcl, if_neg (by decide), if_neg (by decide), if_pos rfl]
    exact convertTagged_spec ctx _ (caretPreAfterDelete_nil ctx _ hpre hcl)
  · intro ctx hpre
    have hcl : currentLineOf ctx = chars ">" := by
      unfold currentLineOf
      rw [hpre]
      decide
    rw [applyMS_space_chain, hcl, if_neg (by decide), if_neg (by decide),
      if_neg (by decide), if_pos rfl]
    exact convertTagged_spec ctx _ (caretPreAfterDelete_nil ctx _ hpre hcl)
  · intro ctx hpre
    have hcl : currentLineOf ctx = chars "-" := by
      unfold currentLineOf
      rw [hpre]
      decide
    rw [applyMS_space_chain, hcl, if_neg (by decide), if_neg (by decide),
      if_neg (by decide), if_neg (by decide), if_pos (by decide)]
    exact convertList_spec ctx _ (caretPreAfterDelete_nil ctx _ hpre hcl)
  · intro ctx hpre
    have hcl : currentLineOf ctx = chars "*" := by
      unfold currentLineOf
      rw [hpre]
      decide
    rw [applyMS_space_chain, hcl, if_neg (by decide), if_neg (by decide),
      if_neg (by decide), if_neg (by decide), if_pos (by decide)]
    exact convertList_spec ctx _ (caretPreAfterDelete_nil ctx _ hpre hcl)
  · intro ctx hpre
    have hcl : currentLineOf ctx = chars "1." := by
      unfold currentLineOf
      rw [hpre]
      decide
    rw [applyMS_space_chain, hcl, if_neg (by decide), if_neg (by decide),
      if_neg (by decide), if_neg (by decide), if_neg (by decide), if_pos rfl]
    exact convertList_spec ctx _ (caretPreAfterDelete_nil ctx _ hpre hcl)
  · intro ctx hpre
    have hcl : currentLineOf ctx = chars "---" := by
      unfold currentLineOf
      rw [hpre]
      decide
    have happ : applyMarkdownShortcut (chars "Enter") true ctx = insertHrRes ctx := by
      unfold applyMarkdownShortcut
      rw [if_neg (by decide), if_neg (by decide), if_pos ⟨rfl, Or.inl hcl⟩]
    rw [happ]
    unfold insertHrRes
    rw [caretPreAfterDelete_nil ctx _ hpre hcl]
  · intro ctx hpre
    have hcl : currentLineOf ctx = chars "***" := by
      unfold currentLineOf
      rw [hpre]
      decide
    have happ : applyMarkdownShortcut (chars "Enter") true ctx = insertHrRes ctx := by
      unfold applyMarkdownShortcut
      rw [if_neg (by decide), if_neg (by decide), if_pos ⟨rfl, Or.inr hcl⟩]
    rw [happ]
    unfold insertHrRes
    rw [caretPreAfterDelete_nil ctx _ hpre hcl]

/-- Witness for C2: a lone hash line becomes a heading-one block in
place, and a lone dash-dash-dash line becomes a rule plus a fresh
paragraph. -/
theorem block_shortcut_conversion_witness :
    (applyMarkdownShortcut [' '] true ⟨.pB, [], chars "#", [], []⟩).prevented = true
    ∧ (applyMarkdownShortcut [' '] true ⟨.pB, [], chars "#", [], []⟩).blocks =
        [⟨.tagged .h1B, [[]]⟩]
    ∧ applyMarkdownShortcut (chars "Enter") true ⟨.pB, [], chars "---", [], []⟩ =
        ⟨true, true, [⟨.tagged .pB, [[]]⟩, ⟨.hrB, []⟩, ⟨.tagged .pB, [[]]⟩], 2⟩ := by
  have h1 := block_shortcut_conversion.1 ⟨.pB, [], chars "#", [], []⟩ rfl
  have h2 := block_shortcut_conversion.2.2.2.2.2.2.2.1 ⟨.pB, [], chars "---", [], []⟩ rfl
  exact ⟨h1.1, (h1.2.2.1 (by decide)).1, h2⟩

/-! theorems for the Enter state machine (C3) -/

/-- C3 counterexample: on Enter in a list item with the caret inside
inline-formatted content, the engine does not defer to native list
continuation: the event default is prevented, the caret is moved out
of the formatting and a manual paragraph insert runs. -/
theorem enter_in_list_not_native :
    handleEnterKey ⟨false, false, true, false, true, false, true, []⟩ =
      ⟨true, .execInsertParagraph, none, true, true, false⟩
    ∧ (handleEnterKey ⟨false, false, true, false, true, false, true, []⟩).prevented ≠ false := by
  decide

/-- C3 amended: for Enter without shift and outside composition: when
the caret is not in a list item the event is consumed and a clean
plain paragraph is inserted after the current block, whatever the
block kind, with the caret first moved out of inline formatting and
the typing state cleared; when the caret is in a list item the engine
defers to native list continuation only if the caret is not inside
inline-formatted content and the trailing line is not a
horizontal-rule trigger; in a list item inside inline-formatted
content the event is consumed, the caret exits the formatting and a
paragraph insert runs instead of native continuation. -/
theorem enter_key_amended (c : EnterCtx)
    (hcomp : c.composing = false) (hshift : c.shift = false) :
    (c.inBulletList = false → c.inOrderedList = false → c.hasCurrentBlock = true →
      handleEnterKey c =
        ⟨true, .cleanParagraph, some (BKind.tagged .pB), c.insideInline, true, false⟩)
    ∧ ((c.inBulletList = true ∨ c.inOrderedList = true) → c.insideInline = false →
        trimChars c.trailingLine ≠ chars "---" → trimChars c.trailingLine ≠ chars "***" →
        (handleEnterKey c).prevented = false ∧ (handleEnterKey c).action = .native)
    ∧ ((c.inBulletList = true ∨ c.inOrderedList = true) → c.insideInline = true →
        handleEnterKey c = ⟨true, .execInsertParagraph, none, true, true, false⟩) := by
  refine ⟨?_, ?_, ?_⟩
  · intro hb ho hblk
    unfold handleEnterKey
    rw [if_neg (by simp [hcomp]), if_pos ⟨hshift, hb, ho⟩, if_pos hblk, if_pos hblk]
  · intro hl hin h1 h2
    unfold handleEnterKey
    rw [if_neg (by simp [hcomp])]
    rw [if_neg (by rcases hl with h | h <;> simp [h])]
    rw [if_neg (by simp [hin])]
    cases hf : c.resetFlag with
    | true =>
      rw [if_pos rfl, if_pos hl]
      exact ⟨rfl, rfl⟩
    | false =>
      rw [if_neg (by simp), if_neg (by simp [h1, h2])]
      exact ⟨rfl, rfl⟩
  · intro hl hin
    unfold handleEnterKey
    rw [if_neg (by simp [hcomp])]
    rw [if_neg (by rcases hl with h | h <;> simp [h])]
    rw [if_pos ⟨hshift, hin⟩]

/-- Witness for C3 amended: a heading-like non-list context yields a
clean plain paragraph; a plain list context stays native. -/
theorem enter_key_amended_witness :
    handleEnterKey ⟨false, false, false, false, true, false, true, []⟩ =
      ⟨true, .cleanParagraph, some (BKind.tagged .pB), true, true, false⟩
    ∧ (handleEnterKey ⟨false, false, true, false, false, false, true, []⟩).action = .native := by
  have h := enter_key_amended ⟨false, false, false, false, true, false, true, []⟩ rfl rfl
  have h2 := enter_key_amended ⟨false, false, true, false, false, false, true, []⟩ rfl rfl
  exact ⟨h.1 rfl rfl rfl, (h2.2.1 (Or.inl rfl) rfl (by decide) (by decide)).2⟩

/-! lemmas about the inline pattern scanners -/

theorem orElse_cases {α : Type} {a b : Option α} {m : α}
    (h : (a <|> b) = some m) : a = some m ∨ b = some m := by
  cases a with
  | some x => exact Or.inl h
  | none => exact Or.inr h

theorem scanFor_suffix {f : Option Char → List Char → Option (List Char)}
    {k : InlineKind} {r : List Cmd} :
    ∀ {prev : Option Char} {l : List Char} {m : InlineFound},
      scanFor f k r prev l = some m → m.full <:+ l := by
  intro prev l
  induction l generalizing prev with
  | nil => intro m h; simp [scanFor] at h
  | cons c rest ih =>
    intro m h
    rw [scanFor] at h
    cases hf : f prev (c :: rest) with
    | some inner =>
      rw [hf] at h
      cases h
      exact List.suffix_refl _
    | none =>
      rw [hf] at h
      exact (ih h).trans (List.suffix_cons c rest)

theorem scanLink_suffix :
    ∀ {l : List Char} {m : InlineFound}, scanLink l = some m → m.full <:+ l := by
  intro l
  induction l with
  | nil => intro m h; simp [scanLink] at h
  | cons c rest ih =>
    intro m h
    rw [scanLink] at h
    cases hf : tryLinkAt (c :: rest) with
    | some p =>
      rw [hf] at h
      cases h
      exact List.suffix_refl _
    | none =>
      rw [hf] at h
      exact (ih h).trans (List.suffix_cons c rest)

theorem findInlineMatch_suffix {before : List Char} {m : InlineFound}
    (h : findInlineMatch before = some m) : m.full <:+ before := by
  unfold findInlineMatch at h
  rcases orElse_cases h with h1 | h
  · exact scanFor_suffix h1
  rcases orElse_cases h with h1 | h
  · exact scanFor_suffix h1
  rcases orElse_cases h with h1 | h
  · exact scanFor_suffix h1
  rcases orElse_cases h with h1 | h
  · exact scanFor_suffix h1
  rcases orElse_cases h with h1 | h
  · exact scanFor_suffix h1
  rcases orElse_cases h with h1 | h
  · exact scanFor_suffix h1
  rcases orElse_cases h with h1 | h
  · exact scanFor_suffix h1
  exact scanLink_suffix h

/-- C1: on a space keystroke with a collapsed caret in a text node,
whenever the inline pattern table matches the text before the caret,
the matched span including its delimiters is removed (the text kept
before it plus the match reassemble the pre-caret text), it is
replaced by exactly one formatted inline node holding only the inner
text followed by one plain one-space text node, the caret lands
inside that trailing space node at its end, and the keystroke default
is prevented so no second space appears. -/
theorem inline_shortcut_replacement (data : List Char) (offset : Nat) (m : InlineFound)
    (hoff : offset ≤ data.length)
    (hm : findInlineMatch (data.take offset) = some m) :
    ∃ r, applyInlineMarkdownShortcut [' '] true (some ⟨data, offset⟩) = some r
      ∧ r.nodes = [INode.text (data.take (offset - m.full.length)),
          INode.el m.kind m.inner, INode.text [' '], INode.text (data.drop offset)]
      ∧ data.take (offset - m.full.length) ++ m.full = data.take offset
      ∧ r.nodes.get? r.caretNode = some (INode.text [' '])
      ∧ r.caretOffset = 1
      ∧ r.prevented = true := by
  obtain ⟨p, hp⟩ := findInlineMatch_suffix hm
  have hlenb : (data.take offset).length = offset := by
    rw [List.length_take]; omega
  have hlen : p.length + m.full.length = offset := by
    have h0 := congrArg List.length hp
    rw [List.length_append, hlenb] at h0
    exact h0
  have hrs : offset - m.full.length = p.length := by omega
  have happ : applyInlineMarkdownShortcut [' '] true (some ⟨data, offset⟩) =
      some (inlineConvOf ⟨data, offset⟩ m) := by
    show (findInlineMatch (data.take offset)).map (inlineConvOf ⟨data, offset⟩) = _
    rw [hm]
    rfl
  have hpre : data.take (offset - m.full.length) = p := by
    rw [hrs]
    have h1 : data.take p.length = (data.take offset).take p.length := by
      rw [List.take_take]
      congr 1
      omega
    rw [h1, ← hp, List.take_left]
  have htklen : (data.take (offset - m.full.length)).length = offset - m.full.length := by
    rw [List.length_take]; omega
  have htake : (textDeleteRange data (offset - m.full.length) offset).take
      (offset - m.full.length) = data.take (offset - m.full.length) := by
    unfold textDeleteRange
    exact List.take_left' htklen
  have hdrop : (textDeleteRange data (offset - m.full.length) offset).drop
      (offset - m.full.length) = data.drop offset := by
    unfold textDeleteRange
    exact List.drop_left' htklen
  refine ⟨inlineConvOf ⟨data, offset⟩ m, happ, ?_, ?_, rfl, rfl, rfl⟩
  · show splitInsertAt (textDeleteRange data (offset - m.full.length) offset)
        (offset - m.full.length) [INode.el m.kind m.inner, INode.text [' ']] = _
    unfold splitInsertAt
    rw [htake, hdrop]
    rfl
  · rw [hpre, hp]

/-- Witness for C1 at the pre-caret text of typing hi **b** then
space. -/
theorem inline_shortcut_replacement_witness :
    ∃ r, applyInlineMarkdownShortcut [' '] true
        (some ⟨['h', 'i', ' ', '*', '*', 'b', '*', '*', 'x'], 8⟩) = some r
      ∧ r.nodes = [INode.text ['h', 'i', ' '], INode.el .boldK ['b'],
          INode.text [' '], INode.text ['x']]
      ∧ r.prevented = true := by
  obtain ⟨r, h1, h2, _, _, _, h6⟩ := inline_shortcut_replacement
    ['h', 'i', ' ', '*', '*', 'b', '*', '*', 'x'] 8
    ⟨['*', '*', 'b', '*', '*'], ['b'], .boldK, [.bold]⟩ (by decide) (by decide)
  exact ⟨r, h1, by rw [h2]; rfl, h6⟩

/-! nonempty-capture lemmas for C8 -/

theorem tryBoldAt_ne {s inner : List Char} (h : tryBoldAt s = some inner) :
    inner ≠ [] := by
  unfold tryBoldAt at h
  split at h
  · split at h
    · rename_i hcond
      cases h
      apply List.ne_nil_of_length_pos
      rw [List.length_take]
      have := hcond.1
      omega
    · exact absurd h (by simp)
  · exact absurd h (by simp)

theorem trySingleAt_ne {d : Char} {lb : Bool} {prev : Option Char} {s inner : List Char}
    (h : trySingleAt d lb prev s = some inner) : inner ≠ [] := by
  unfold trySingleAt at h
  split at h
  · exact absurd h (by simp)
  · split at h
    · split at h
      · rename_i hcond
        cases h
        apply List.ne_nil_of_length_pos
        rw [List.length_take]
        have := hcond.1
        omega
      · exact absurd h (by simp)
    · exact absurd h (by simp)

theorem tryTildeAt_ne {s inner : List Char} (h : tryTildeAt s = some inner) :
    inner ≠ [] := by
  unfold tryTildeAt at h
  split at h
  · split at h
    · rename_i hcond
      cases h
      apply List.ne_nil_of_length_pos
      rw [List.length_take]
      have := hcond.1
      omega
    · exact absurd h (by simp)
  · exact absurd h (by simp)

theorem tryPlusAt_ne {s inner : List Char} (h : tryPlusAt s = some inner) :
    inner ≠ [] := by
  unfold tryPlusAt at h
  split at h
  · split at h
    · rename_i hcond
      cases h
      apply List.ne_nil_of_length_pos
      rw [List.length_take]
      have := hcond.1
      omega
    · exact absurd h (by simp)
  · exact absurd h (by simp)

theorem tryUTagAt_ne {s inner : List Char} (h : tryUTagAt s = some inner) :
    inner ≠ [] := by
  unfold tryUTagAt at h
  split at h
  · split at h
    · rename_i hcond
      cases h
      apply List.ne_nil_of_length_pos
      rw [List.length_take]
      have := hcond.1
      omega
    · exact absurd h (by simp)
  · exact absurd h (by simp)

theorem tryLinkAt_ne {s : List Char} {p : List Char × List Char}
    (h : tryLinkAt s = some p) : p.1 ≠ [] := by
  unfold tryLinkAt at h
  split at h
  · split at h
    · split at h
      · rename_i hc1 hc2
        cases h
        exact hc1.1
      · exact absurd h (by simp)
    · exact absurd h (by simp)
  · exact absurd h (by simp)

theorem scanFor_inner {f : Option Char → List Char → Option (List Char)}
    {k : InlineKind} {r : List Cmd}
    (hf : ∀ prev s inner, f prev s = some inner → inner ≠ []) :
    ∀ {prev : Option Char} {l : List Char} {m : InlineFound},
      scanFor f k r prev l = some m → m.inner ≠ [] := by
  intro prev l
  induction l generalizing prev with
  | nil => intro m h; simp [scanFor] at h
  | cons c rest ih =>
    intro m h
    rw [scanFor] at h
    cases hfc : f prev (c :: rest) with
    | some inner =>
      rw [hfc] at h
      cases h
      exact hf _ _ _ hfc
    | none =>
      rw [hfc] at h
      exact ih h

theorem scanLink_inner :
    ∀ {l : List Char} {m : InlineFound}, scanLink l = some m → m.inner ≠ [] := by
  intro l
  induction l with
  | nil => intro m h; simp [scanLink] at h
  | cons c rest ih =>
    intro m h
    rw [scanLink] at h
    cases hfc : tryLinkAt (c :: rest) with
    | some p =>
      rw [hfc] at h
      cases h
      exact tryLinkAt_ne hfc
    | none =>
      rw [hfc] at h
      exact ih h

/-- C8: empty capture groups never match: every successful inline
match has a nonempty inner capture; on each of the listed
empty-capture candidate texts no pattern matches at all; and whenever
no pattern matches, the shortcut handler does nothing, so the
keystroke proceeds as plain input with no error surfaced. -/
theorem empty_capture_never_matches :
    (∀ s m, findInlineMatch s = some m → m.inner ≠ [])
    ∧ findInlineMatch ['*', '*'] = none
    ∧ findInlineMatch ['_', '_'] = none
    ∧ findInlineMatch ['~', '~', '~', '~'] = none
    ∧ findInlineMatch [backtickChar, backtickChar] = none
    ∧ findInlineMatch ['+', '+', '+', '+'] = none
    ∧ findInlineMatch ['<', 'u', '>', '<', '/', 'u', '>'] = none
    ∧ findInlineMatch ['[', ']', '(', ')'] = none
    ∧ (∀ tc : TextCaret, findInlineMatch (tc.data.take tc.offset) = none →
        applyInlineMarkdownShortcut [' '] true (some tc) = none) := by
  refine ⟨?_, by decide, by decide, by decide, by decide, by decide, by decide, by decide, ?_⟩
  · intro s m h
    unfold findInlineMatch at h
    rcases orElse_cases h with h1 | h
    · exact scanFor_inner (fun _ _ _ hh => tryBoldAt_ne hh) h1
    rcases orElse_cases h with h1 | h
    · exact scanFor_inner (fun _ _ _ hh => trySingleAt_ne hh) h1
    rcases orElse_cases h with h1 | h
    · exact scanFor_inner (fun _ _ _ hh => trySingleAt_ne hh) h1
    rcases orElse_cases h with h1 | h
    · exact scanFor_inner (fun _ _ _ hh => tryTildeAt_ne hh) h1
    rcases orElse_cases h with h1 | h
    · exact scanFor_inner (fun _ _ _ hh => trySingleAt_ne hh) h1
    rcases orElse_cases h with h1 | h
    · exact scanFor_inner (fun _ _ _ hh => tryPlusAt_ne hh) h1
    rcases orElse_cases h with h1 | h
    · exact scanFor_inner (fun _ _ _ hh => tryUTagAt_ne hh) h1
    exact scanLink_inner h
  · intro tc hnone
    show (findInlineMatch (tc.data.take tc.offset)).map (inlineConvOf tc) = none
    rw [hnone]
    rfl

/-- Witness for C8: the nonempty-capture fact applied to a concrete
match, and the pass-through fact applied to the bare double-star
text. -/
theorem empty_capture_never_matches_witness :
    (['b', 'o', 'l', 'd'] : List Char) ≠ []
    ∧ applyInlineMarkdownShortcut [' '] true (some ⟨['*', '*'], 2⟩) = none := by
  constructor
  · exact empty_capture_never_matches.1 ['*', '*', 'b', 'o', 'l', 'd', '*', '*']
      ⟨['*', '*', 'b', 'o', 'l', 'd', '*', '*'], ['b', 'o', 'l', 'd'], .boldK, [.bold]⟩
      (by decide)
  · exact empty_capture_never_matches.2.2.2.2.2.2.2.2 ⟨['*', '*'], 2⟩ (by decide)

/-! lemmas for the typing-state epilogue (C4) -/

theorem getCmd_execToggleOff_same (s : CmdStates) (c : Cmd) :
    getCmd (execToggleOff s c) c = false := by
  cases c <;> rfl

theorem getCmd_execToggleOff_mono {s : CmdStates} {c : Cmd} (c' : Cmd)
    (h : getCmd s c = false) : getCmd (execToggleOff s c') c = false := by
  cases c <;> cases c' <;> first | rfl | exact h

theorem applyReset_false {c : Cmd} : ∀ {l : List Cmd} {s : CmdStates},
    getCmd s c = false → getCmd (applyResetCommands l s) c = false := by
  intro l
  induction l with
  | nil => intro s h; exact h
  | cons a t ih =>
    intro s h
    exact ih (getCmd_execToggleOff_mono a h)

theorem applyReset_mem {c : Cmd} : ∀ {l : List Cmd} {s : CmdStates},
    c ∈ l → getCmd (applyResetCommands l s) c = false := by
  intro l
  induction l with
  | nil => intro s h; cases h
  | cons a t ih =>
    intro s h
    cases List.mem_cons.mp h with
    | inl he =>
      subst he
      show getCmd (applyResetCommands t (execToggleOff s c)) c = false
      exact applyReset_false (getCmd_execToggleOff_same s c)
    | inr ht =>
      show getCmd (applyResetCommands t (execToggleOff s a)) c = false
      exact ih ht

theorem getCmd_clear_false {s : CmdStates} {c : Cmd}
    (h : getCmd s c = false) : getCmd (clearInlineTypingState s) c = false := by
  cases c <;> first | rfl | exact h

/-- C4 counterexample: with the caret inside a heading and the bold
typing state on, converting a double-star pattern still forces the
bold toggle off, although the claim says the heading's bold
formatting must not be stripped there. -/
theorem heading_bold_still_reset :
    (afterInlineConversion [Cmd.bold] true ⟨true, true, true, true⟩).1.bold = false := by
  decide

/-- C4 amended: the toggles listed in the consumed pattern's
resetCommands are always forced off, inside headings included; the
blanket clearInlineTypingState pass, which clears italic,
strikethrough and underline but deliberately never touches bold, is
skipped inside headings, and the reset-typing flag is armed only
outside headings. -/
theorem inline_reset_amended (resets : List Cmd) (inHeading : Bool) (s : CmdStates) :
    (∀ c ∈ resets, getCmd (afterInlineConversion resets inHeading s).1 c = false)
    ∧ (inHeading = true →
        (afterInlineConversion resets inHeading s).1 = applyResetCommands resets s
        ∧ (afterInlineConversion resets inHeading s).2 = false)
    ∧ (inHeading = false →
        (afterInlineConversion resets inHeading s).1.italic = false
        ∧ (afterInlineConversion resets inHeading s).1.strikeThrough = false
        ∧ (afterInlineConversion resets inHeading s).1.underline = false
        ∧ (afterInlineConversion resets inHeading s).1.bold = (applyResetCommands resets s).bold
        ∧ (afterInlineConversion resets inHeading s).2 = true) := by
  refine ⟨?_, ?_, ?_⟩
  · intro c hc
    unfold afterInlineConversion
    cases inHeading with
    | true => exact applyReset_mem hc
    | false =>
      simp only [Bool.false_eq_true, if_false]
      exact getCmd_clear_false (applyReset_mem hc)
  · intro h
    subst h
    exact ⟨rfl, rfl⟩
  · intro h
    subst h
    exact ⟨rfl, rfl, rfl, rfl, rfl⟩

/-- Witness for C4 amended, outside a heading with the bold pattern. -/
theorem inline_reset_amended_witness :
    getCmd (afterInlineConversion [Cmd.bold] false ⟨true, true, true, true⟩).1 Cmd.bold = false
    ∧ (afterInlineConversion [Cmd.bold] false ⟨true, true, true, true⟩).1.italic = false
    ∧ (afterInlineConversion [Cmd.bold] false ⟨true, true, true, true⟩).2 = true := by
  obtain ⟨h1, _, h3⟩ := inline_reset_amended [Cmd.bold] false ⟨true, true, true, true⟩
  obtain ⟨h4, _, _, _, h5⟩ := h3 rfl
  exact ⟨h1 Cmd.bold (by decide), h4, h5⟩

end PerfectMD
